import Mathlib

/-!
Shallow embedding of `src/storage/movie_storage_sql.py` from the
movie-projekt repository, together with proofs of the specified
properties of the record store.

Modelling conventions:
* The database table `movies` is modelled as a list of `Movie` records in
  rowid (= insertion) order; `SELECT` without `ORDER BY` on this table
  scans in that order.
* SQLite `REAL` ratings are modelled as rationals (`ℚ`), `INTEGER` years
  as `Int`, `TEXT` columns as `String`.
* The `title TEXT UNIQUE` constraint uses SQLite's default BINARY
  collation, i.e. exact string equality; an `INSERT` violating it raises
  `IntegrityError`, which `add_movie` catches and converts to `False`.
  The predicate `TitlesNodup` states the resulting table invariant.
* `delete_movie` / `update_movie` compare `LOWER(title)` (SQLite, ASCII
  fold) against Python's `title.lower()`.  Over the ASCII strings the
  program manipulates both coincide with `lowerAscii` below, which folds
  exactly the characters `A`..`Z`.
* Python's `print`-based reporting in `stats_of_movies` is modelled by
  returning `Option Stats`: `none` is the printed "No movies in
  database." signal, `some` carries the four printed numbers.
-/

namespace MovieProjekt

/-- A row of the `movies` table (the internal autoincrement `id` is not
exposed to callers; its only observable effect, scan order, is captured
by the list order). -/
structure Movie where
  title : String
  year : Int
  rating : ℚ
  poster : String
deriving DecidableEq

/-- The value part of the mapping returned by `get_movies`. -/
structure MovieData where
  year : Int
  rating : ℚ
  poster : String
deriving DecidableEq

/-- The `movies` table, rows in rowid order. -/
abbrev Store := List Movie

/-- ASCII lower-casing of a single character: folds `A`..`Z`, leaves
everything else alone (the behaviour of SQLite `LOWER` and of Python
`str.lower` on ASCII input). -/
def lowerChar (c : Char) : Char :=
  if 65 ≤ c.toNat ∧ c.toNat ≤ 90 then Char.ofNat (c.toNat + 32) else c

/-- ASCII lower-casing of a string. -/
def lowerAscii (s : String) : String :=
  ⟨s.data.map lowerChar⟩

/-- Exact-title uniqueness: the invariant enforced by the
`title TEXT UNIQUE` column constraint (BINARY collation). -/
def TitlesNodup (s : Store) : Prop :=
  (s.map Movie.title).Nodup

instance (s : Store) : Decidable (TitlesNodup s) := by
  unfold TitlesNodup; infer_instance

/-- One step of building a Python dict: inserting key `k` with value `v`
overwrites the value of an existing equal key (keeping the original key
object) and otherwise appends the pair at the end, preserving insertion
order. -/
def dictInsert (d : List (String × MovieData)) (k : String) (v : MovieData) :
    List (String × MovieData) :=
  if d.any (fun p => p.1 == k) then
    d.map (fun p => if p.1 == k then (p.1, v) else p)
  else d ++ [(k, v)]

/-- `get_movies`: `SELECT title, year, rating, poster FROM movies`, then
the dict comprehension building the title-keyed mapping. -/
def get_movies (s : Store) : List (String × MovieData) :=
  s.foldl (fun d m => dictInsert d m.title ⟨m.year, m.rating, m.poster⟩) []

/-- Python dict lookup `d[k]` / `k in d`, as an option. -/
def lookupD (d : List (String × MovieData)) (k : String) : Option MovieData :=
  (d.find? (fun p => p.1 == k)).map (fun p => p.2)

/-- `add_movie`: the `INSERT` succeeds unless a row with the exact same
title exists, in which case the `UNIQUE` constraint raises
`IntegrityError`, the transaction is rolled back and `False` is
returned. -/
def add_movie (s : Store) (title : String) (year : Int) (rating : ℚ)
    (poster : String) : Bool × Store :=
  if s.any (fun m => m.title == title) then
    (false, s)
  else
    (true, s ++ [⟨title, year, rating, poster⟩])

/-- `delete_movie`: `DELETE FROM movies WHERE LOWER(title) = :title` with
`:title = title.lower()`; returns `rowcount > 0`. -/
def delete_movie (s : Store) (title : String) : Bool × Store :=
  (s.any (fun m => lowerAscii m.title == lowerAscii title),
   s.filter (fun m => !(lowerAscii m.title == lowerAscii title)))

/-- `update_movie`: returns `False` immediately when no rating was
supplied; otherwise runs
`UPDATE movies SET rating = :rating WHERE LOWER(title) = :title` and
returns `rowcount > 0`. -/
def update_movie (s : Store) (title : String) (rating : Option ℚ) :
    Bool × Store :=
  match rating with
  | none => (false, s)
  | some r =>
      (s.any (fun m => lowerAscii m.title == lowerAscii title),
       s.map (fun m =>
         if lowerAscii m.title == lowerAscii title then
           { m with rating := r }
         else m))

/-- The four numbers printed by `stats_of_movies` on a non-empty store. -/
structure Stats where
  count : Nat
  min_rating : ℚ
  max_rating : ℚ
  avg_rating : ℚ
deriving DecidableEq

/-- `stats_of_movies`: collects the `rating` column; on an empty list
prints the "No movies in database." signal (`none`), otherwise prints
`len`, `min`, `max` and `sum/len` of the ratings. -/
def stats_of_movies (s : Store) : Option Stats :=
  match s.map Movie.rating with
  | [] => none
  | r :: rs =>
      some ⟨(r :: rs).length, rs.foldl min r, rs.foldl max r,
            ((r :: rs).foldl (· + ·) 0) / ((r :: rs).length : ℚ)⟩

/-- Folding a list of `add_movie` calls over a store state (used to state
the uniqueness invariant over arbitrary call sequences). -/
def addList (s : Store) (ops : List (String × Int × ℚ × String)) : Store :=
  ops.foldl (fun st op => (add_movie st op.1 op.2.1 op.2.2.1 op.2.2.2).2) s

/-- The pairing `get_movies` produces for one row. -/
def rowPair (m : Movie) : String × MovieData :=
  (m.title, ⟨m.year, m.rating, m.poster⟩)

-- Basic lemmas about the embedded operations ---------------------------------

lemma add_movie_dup (s : Store) (t : String) (y : Int) (r : ℚ) (p : String)
    (h : ∃ m ∈ s, m.title = t) : add_movie s t y r p = (false, s) := by
  have : s.any (fun m => m.title == t) = true := by
    rcases h with ⟨m, hm, hmt⟩
    exact List.any_eq_true.mpr ⟨m, hm, by simp [hmt]⟩
  simp [add_movie, this]

lemma add_movie_fresh (s : Store) (t : String) (y : Int) (r : ℚ) (p : String)
    (h : ∀ m ∈ s, m.title ≠ t) :
    add_movie s t y r p = (true, s ++ [⟨t, y, r, p⟩]) := by
  have : s.any (fun m => m.title == t) = false := by
    simp only [List.any_eq_false, beq_iff_eq]
    exact h
  simp [add_movie, this]

lemma add_movie_nodup (s : Store) (t : String) (y : Int) (r : ℚ) (p : String)
    (h : TitlesNodup s) : TitlesNodup (add_movie s t y r p).2 := by
  by_cases hc : s.any (fun m => m.title == t) = true
  · simpa [add_movie, hc] using h
  · have hfresh : ∀ m ∈ s, m.title ≠ t := by
      simpa [List.any_eq_true] using hc
    have hnm : t ∉ s.map Movie.title := by
      simp only [List.mem_map, not_exists, not_and]
      intro m hm he
      exact hfresh m hm he
    simp only [add_movie, hc, if_false, Bool.false_eq_true]
    unfold TitlesNodup
    rw [List.map_append, List.nodup_append]
    refine ⟨h, by simp, ?_⟩
    intro x hx
    simp only [List.map_cons, List.map_nil, List.mem_singleton]
    intro hxt
    exact hnm (hxt ▸ hx)

lemma addList_nodup (ops : List (String × Int × ℚ × String)) (s : Store)
    (h : TitlesNodup s) : TitlesNodup (addList s ops) := by
  induction ops generalizing s with
  | nil => simpa [addList] using h
  | cons op ops ih =>
      have step := add_movie_nodup s op.1 op.2.1 op.2.2.1 op.2.2.2 h
      simpa [addList, List.foldl_cons] using ih _ step

lemma dictInsert_fresh (d : List (String × MovieData)) (k : String)
    (v : MovieData) (h : ∀ p ∈ d, p.1 ≠ k) :
    dictInsert d k v = d ++ [(k, v)] := by
  have : d.any (fun p => p.1 == k) = false := by
    simp only [List.any_eq_false, beq_iff_eq]
    exact h
  simp [dictInsert, this]

lemma get_movies_go (s : Store) (d : List (String × MovieData))
    (hd : ∀ m ∈ s, ∀ p ∈ d, p.1 ≠ m.title) (hs : TitlesNodup s) :
    s.foldl (fun d m => dictInsert d m.title ⟨m.year, m.rating, m.poster⟩) d
      = d ++ s.map rowPair := by
  induction s generalizing d with
  | nil => simp
  | cons m s ih =>
      have hmem : ∀ p ∈ d, p.1 ≠ m.title := fun p hp =>
        hd m (List.mem_cons_self m s) p hp
      have hcons : m.title ∉ s.map Movie.title ∧ (s.map Movie.title).Nodup := by
        have := hs
        unfold TitlesNodup at this
        simpa [List.nodup_cons] using this
      have hhead : m.title ∉ s.map Movie.title := hcons.1
      have htail : TitlesNodup s := hcons.2
      have hd' : ∀ m' ∈ s, ∀ p ∈ d ++ [(m.title, (⟨m.year, m.rating, m.poster⟩ : MovieData))],
          p.1 ≠ m'.title := by
        intro m' hm' p hp
        rcases List.mem_append.mp hp with hL | hR
        · exact hd m' (List.mem_cons_of_mem m hm') p hL
        · have hpm : p = (m.title, (⟨m.year, m.rating, m.poster⟩ : MovieData)) := by
            simpa using hR
          subst hpm
          intro he
          simp only at he
          exact hhead (by rw [he]; exact List.mem_map_of_mem Movie.title hm')
      calc (m :: s).foldl (fun d m => dictInsert d m.title ⟨m.year, m.rating, m.poster⟩) d
          = s.foldl (fun d m => dictInsert d m.title ⟨m.year, m.rating, m.poster⟩)
              (d ++ [(m.title, ⟨m.year, m.rating, m.poster⟩)]) := by
            rw [List.foldl_cons, dictInsert_fresh d m.title _ hmem]
        _ = d ++ [(m.title, ⟨m.year, m.rating, m.poster⟩)] ++ s.map rowPair :=
            ih _ hd' htail
        _ = d ++ (m :: s).map rowPair := by
            simp [rowPair, List.append_assoc]

lemma get_movies_eq (s : Store) (hs : TitlesNodup s) :
    get_movies s = s.map rowPair := by
  have := get_movies_go s [] (by simp) hs
  simpa [get_movies] using this

lemma lookupD_append (d₁ d₂ : List (String × MovieData)) (k : String) :
    lookupD (d₁ ++ d₂) k =
      (lookupD d₁ k).elim (lookupD d₂ k) (fun v => some v) := by
  induction d₁ with
  | nil => simp [lookupD]
  | cons p d₁ ih =>
      by_cases hp : p.1 = k
      · simp [lookupD, List.find?_cons, hp]
      · have hp' : (p.1 == k) = false := by simpa using hp
        simpa [lookupD, List.find?_cons, hp'] using ih

lemma lookupD_none (s : Store) (k : String) (h : ∀ m ∈ s, m.title ≠ k) :
    lookupD (s.map rowPair) k = none := by
  induction s with
  | nil => simp [lookupD]
  | cons m s ih =>
      have hm : (m.title == k) = false := by
        simpa using h m (List.mem_cons_self m s)
      have ih' := ih (fun m' hm' => h m' (List.mem_cons_of_mem m hm'))
      simpa [lookupD, rowPair, List.find?_cons, hm] using ih'

lemma roundtrip_aux (s : Store) (t : String) (y : Int) (r : ℚ) (p : String)
    (hn : TitlesNodup s) (h : ∀ m ∈ s, m.title ≠ t) :
    (add_movie s t y r p).1 = true ∧
    lookupD (get_movies (add_movie s t y r p).2) t = some ⟨y, r, p⟩ := by
  rw [add_movie_fresh s t y r p h]
  refine ⟨rfl, ?_⟩
  have hn' : TitlesNodup (s ++ [⟨t, y, r, p⟩]) := by
    have := add_movie_nodup s t y r p hn
    rwa [add_movie_fresh s t y r p h] at this
  rw [get_movies_eq _ hn', List.map_append, lookupD_append, lookupD_none s t h]
  simp [lookupD, rowPair]

lemma lookupD_mem (s : Store) (h : TitlesNodup s) (m : Movie) (hm : m ∈ s) :
    lookupD (s.map rowPair) m.title = some ⟨m.year, m.rating, m.poster⟩ := by
  induction s with
  | nil => cases hm
  | cons a s ih =>
      have hcons : a.title ∉ s.map Movie.title ∧ (s.map Movie.title).Nodup := by
        have := h
        unfold TitlesNodup at this
        simpa [List.nodup_cons] using this
      rcases List.mem_cons.mp hm with rfl | hm'
      · simp [lookupD, rowPair, List.find?_cons]
      · have hne : (a.title == m.title) = false := by
          simp only [beq_eq_false_iff_ne, ne_eq]
          intro he
          exact hcons.1 (he ▸ List.mem_map_of_mem Movie.title hm')
        have ih' := ih hcons.2 hm'
        simpa [lookupD, rowPair, List.find?_cons, hne] using ih'

-- Claim theorems -------------------------------------------------------------

/-- C1: Title uniqueness is an invariant of the store: starting from any
state satisfying the `UNIQUE` column invariant, after any sequence of
`add_movie` calls no two stored records share the same title; and an
`add_movie` whose title exactly matches an existing record's title
returns `False` and leaves the store (hence the record count)
unchanged. -/
theorem add_title_uniqueness_invariant (s : Store)
    (ops : List (String × Int × ℚ × String)) (h : TitlesNodup s) :
    TitlesNodup (addList s ops) ∧
    ∀ t y r p, (∃ m ∈ s, m.title = t) →
      add_movie s t y r p = (false, s) ∧
      ((add_movie s t y r p).2).length = s.length := by
  refine ⟨addList_nodup ops s h, ?_⟩
  intro t y r p hdup
  have := add_movie_dup s t y r p hdup
  exact ⟨this, by rw [this]⟩

/-- Witness for C1 at a concrete store and call sequence. -/
theorem add_title_uniqueness_invariant_witness :
    TitlesNodup (addList [⟨"Inception", 2010, 9, "p"⟩] [("A", 1, 2, "x")]) ∧
    add_movie [⟨"Inception", 2010, 9, "p"⟩] "Inception" 1999 5 "q"
      = (false, [⟨"Inception", 2010, 9, "p"⟩]) := by
  have h := add_title_uniqueness_invariant [⟨"Inception", 2010, 9, "p"⟩]
    [("A", 1, 2, "x")] (by decide)
  exact ⟨h.1, (h.2 "Inception" 1999 5 "q" ⟨⟨"Inception", 2010, 9, "p"⟩, by simp, rfl⟩).1⟩

/-- C2: Round-trip: from any store state (with the table's uniqueness
invariant) holding no record titled `t`, a successful
`add_movie t y r p` returns `True` and the mapping returned by
`get_movies` afterwards contains the entry `t ↦ ⟨y, r, p⟩` exactly as
the arguments were given. -/
theorem add_roundtrip (s : Store) (t : String) (y : Int) (r : ℚ) (p : String)
    (hn : TitlesNodup s) (h : ∀ m ∈ s, m.title ≠ t) :
    (add_movie s t y r p).1 = true ∧
    lookupD (get_movies (add_movie s t y r p).2) t = some ⟨y, r, p⟩ :=
  roundtrip_aux s t y r p hn h

/-- Witness for C2: adding "Dune" to a concrete one-record store. -/
theorem add_roundtrip_witness :
    (add_movie [⟨"Inception", 2010, 9, "p"⟩] "Dune" 2021 8 "q").1 = true ∧
    lookupD (get_movies (add_movie [⟨"Inception", 2010, 9, "p"⟩] "Dune" 2021 8 "q").2)
      "Dune" = some ⟨2021, 8, "q"⟩ :=
  add_roundtrip [⟨"Inception", 2010, 9, "p"⟩] "Dune" 2021 8 "q" (by decide) (by decide)

/-- C7: Idempotent delete: for every store state and title, after calling
`delete_movie` twice in a row the second call returns `False` and the
store state after both calls equals the state after the first call
alone. -/
theorem delete_idempotent (s : Store) (t : String) :
    delete_movie (delete_movie s t).2 t = (false, (delete_movie s t).2) := by
  have hmem : ∀ m ∈ (delete_movie s t).2,
      (lowerAscii m.title == lowerAscii t) = false := by
    intro m hm
    have := (List.mem_filter.mp hm).2
    simpa using this
  have hany : ((delete_movie s t).2).any
      (fun m => lowerAscii m.title == lowerAscii t) = false :=
    List.any_eq_false.mpr (by intro m hm; simp [hmem m hm])
  have hfilter : ((delete_movie s t).2).filter
      (fun m => !(lowerAscii m.title == lowerAscii t)) = (delete_movie s t).2 :=
    List.filter_eq_self.mpr (by intro m hm; simp [hmem m hm])
  show ((delete_movie s t).2.any _, (delete_movie s t).2.filter _) = _
  rw [hany, hfilter]

/-- C9: Calling `update_movie` with no new rating supplied
(`rating = None`) returns `False` and leaves the store completely
unchanged: the guard returns before any SQL statement runs. -/
theorem update_none_noop (s : Store) (t : String) :
    update_movie s t none = (false, s) := rfl

/-- C8: For every store state (under the table's uniqueness invariant)
`get_movies` returns the insertion-ordered mapping sending each stored
record's title to its year/rating/poster — in particular every stored
record is found under its title — and returns the empty mapping on the
empty store.  It is modelled as a pure function of the store (`SELECT`
only), so it has no side effect on the store by construction. -/
theorem list_all_spec (s : Store) (h : TitlesNodup s) :
    get_movies s = s.map rowPair ∧
    (∀ m ∈ s, lookupD (get_movies s) m.title = some ⟨m.year, m.rating, m.poster⟩) ∧
    get_movies ([] : Store) = [] := by
  refine ⟨get_movies_eq s h, ?_, rfl⟩
  intro m hm
  rw [get_movies_eq s h]
  exact lookupD_mem s h m hm

/-- Witness for C8 at a concrete two-record store. -/
theorem list_all_spec_witness :
    get_movies [⟨"A", 1, 2, "p"⟩, ⟨"B", 3, 4, "q"⟩]
      = [("A", ⟨1, 2, "p"⟩), ("B", ⟨3, 4, "q"⟩)] ∧
    lookupD (get_movies [⟨"A", 1, 2, "p"⟩, ⟨"B", 3, 4, "q"⟩]) "B" = some ⟨3, 4, "q"⟩ := by
  have h := list_all_spec [⟨"A", 1, 2, "p"⟩, ⟨"B", 3, 4, "q"⟩] (by decide)
  exact ⟨h.1, h.2.1 ⟨"B", 3, 4, "q"⟩ (by simp)⟩

/-- C10: The store does not enforce the non-empty-title precondition at
its boundary: on a store (satisfying the uniqueness invariant) with no
empty-titled record, `add_movie "" y r p` returns `True` and the
empty-titled record becomes visible to `get_movies`; the non-empty check
lives only in the CLI layer (`command_add_movie`). -/
theorem add_empty_title (s : Store) (y : Int) (r : ℚ) (p : String)
    (hn : TitlesNodup s) (h : ∀ m ∈ s, m.title ≠ "") :
    (add_movie s "" y r p).1 = true ∧
    lookupD (get_movies (add_movie s "" y r p).2) "" = some ⟨y, r, p⟩ :=
  roundtrip_aux s "" y r p hn h

/-- Witness for C10: empty-titled add into a concrete store. -/
theorem add_empty_title_witness :
    (add_movie [⟨"Inception", 2010, 9, "p"⟩] "" 1 2 "x").1 = true ∧
    lookupD (get_movies (add_movie [⟨"Inception", 2010, 9, "p"⟩] "" 1 2 "x").2) ""
      = some ⟨1, 2, "x"⟩ :=
  add_empty_title [⟨"Inception", 2010, 9, "p"⟩] 1 2 "x" (by decide) (by decide)

/-- Case-insensitive distinctness of the stored titles.  This is NOT
enforced by the table (whose `UNIQUE` constraint uses BINARY collation);
it holds only for stores that happen to contain no two titles differing
just in case. -/
def CITitlesNodup (s : Store) : Prop :=
  (s.map (fun m => lowerAscii m.title)).Nodup

instance (s : Store) : Decidable (CITitlesNodup s) := by
  unfold CITitlesNodup; infer_instance

/-- C3 counterexample: at the store level the Gladiator scenario does
NOT reject the differently-cased duplicate.  Starting from the empty
store, `add_movie "Gladiator" 2000 8.5 _` followed by
`add_movie "gladiator" 2001 5 "x"` has the second call return `True`
(the claim says `False`), and `get_movies` then holds two entries (the
claim says exactly one). -/
theorem glad_scenario_cex :
    (add_movie (add_movie [] "Gladiator" 2000 (17/2) "http://example.com/g.jpg").2
        "gladiator" 2001 5 "x").1 = true ∧
    (get_movies (add_movie (add_movie [] "Gladiator" 2000 (17/2) "http://example.com/g.jpg").2
        "gladiator" 2001 5 "x").2).length = 2 := by
  constructor
  · decide
  · decide

/-- C3 amended: the `UNIQUE` constraint compares titles exactly (BINARY
collation), so after `add_movie "Gladiator" 2000 8.5 _` the call
`add_movie "gladiator" 2001 5 "x"` succeeds and `get_movies` returns two
entries, `"Gladiator" ↦ (2000, 8.5, _)` and `"gladiator" ↦ (2001, 5, "x")`;
only the CLI layer's case-insensitive pre-check rejects such an add. -/
theorem glad_scenario :
    (add_movie (add_movie [] "Gladiator" 2000 (17/2) "http://example.com/g.jpg").2
        "gladiator" 2001 5 "x").1 = true ∧
    get_movies (add_movie (add_movie [] "Gladiator" 2000 (17/2) "http://example.com/g.jpg").2
        "gladiator" 2001 5 "x").2 =
      [("Gladiator", ⟨2000, 17/2, "http://example.com/g.jpg"⟩),
       ("gladiator", ⟨2001, 5, "x"⟩)] := by
  exact ⟨by decide, rfl⟩

/-- C4 counterexample: `delete_movie` can remove two records in one
call.  The two-record store reached by adding "Gladiator" and then
"gladiator" (both adds succeed, see C3) is emptied entirely by
`delete_movie _ "GLADIATOR"`, refuting "removes at most one record". -/
theorem delete_at_most_one_cex :
    (addList [] [("Gladiator", 2000, 17/2, "p"), ("gladiator", 2001, 5, "x")]).length = 2 ∧
    ((delete_movie
        (addList [] [("Gladiator", 2000, 17/2, "p"), ("gladiator", 2001, 5, "x")])
        "GLADIATOR").2).length = 0 := by
  constructor
  · decide
  · decide

/-- C4 amended: `delete_movie` matches stored titles case-insensitively
(ASCII fold) and removes EVERY matching record — at most one only when
the stored titles are pairwise case-insensitively distinct; when no
stored title matches it removes nothing and returns `False`. -/
theorem delete_spec (s : Store) (t : String) :
    ((∀ m ∈ s, lowerAscii m.title ≠ lowerAscii t) → delete_movie s t = (false, s)) ∧
    ((delete_movie s t).1 = true ↔ ∃ m ∈ s, lowerAscii m.title = lowerAscii t) ∧
    (∀ m, m ∈ (delete_movie s t).2 ↔ m ∈ s ∧ lowerAscii m.title ≠ lowerAscii t) ∧
    (CITitlesNodup s → s.length - ((delete_movie s t).2).length ≤ 1) := by
  refine ⟨?_, ?_, ?_, ?_⟩
  · intro h
    have hany : s.any (fun m => lowerAscii m.title == lowerAscii t) = false :=
      List.any_eq_false.mpr (by intro m hm; simpa using h m hm)
    have hfilter : s.filter (fun m => !(lowerAscii m.title == lowerAscii t)) = s :=
      List.filter_eq_self.mpr (by intro m hm; simpa using h m hm)
    show (s.any _, s.filter _) = (false, s)
    rw [hany, hfilter]
  · show s.any _ = true ↔ _
    rw [List.any_eq_true]
    simp only [beq_iff_eq]
  · intro m
    show m ∈ s.filter _ ↔ _
    rw [List.mem_filter]
    simp only [Bool.not_eq_true', beq_eq_false_iff_ne, ne_eq]
  · intro hnd
    have hlen : s.length =
        s.countP (fun m => lowerAscii m.title == lowerAscii t) +
          s.countP (fun m => !(lowerAscii m.title == lowerAscii t)) := by
      have h0 := List.length_eq_countP_add_countP
        (p := fun m : Movie => lowerAscii m.title == lowerAscii t) (l := s)
      simpa using h0
    have hfl : ((delete_movie s t).2).length =
        s.countP (fun m => !(lowerAscii m.title == lowerAscii t)) := by
      show (s.filter _).length = _
      rw [List.countP_eq_length_filter]
    have hcount : s.countP (fun m => lowerAscii m.title == lowerAscii t) =
        (s.map (fun m => lowerAscii m.title)).count (lowerAscii t) := by
      rw [List.count, List.countP_map]
      rfl
    have hle : s.countP (fun m => lowerAscii m.title == lowerAscii t) ≤ 1 := by
      rw [hcount]
      exact List.nodup_iff_count_le_one.mp hnd _
    omega

/-- Witness for C4 at concrete stores exercising each hypothesis. -/
theorem delete_spec_witness :
    delete_movie [⟨"Inception", 2010, 9, "p"⟩] "Dune"
      = ((false, [⟨"Inception", 2010, 9, "p"⟩]) : Bool × Store) ∧
    ([⟨"Inception", 2010, 9, "p"⟩] : Store).length -
      ((delete_movie [⟨"Inception", 2010, 9, "p"⟩] "INCEPTION").2).length ≤ 1 := by
  constructor
  · exact (delete_spec [⟨"Inception", 2010, 9, "p"⟩] "Dune").1 (by decide)
  · exact (delete_spec [⟨"Inception", 2010, 9, "p"⟩] "INCEPTION").2.2.2 (by decide)

/-- C5 counterexample: `update_movie` is not frame-preserving on the
other records when two stored titles differ only in case (a reachable
state, since the `UNIQUE` constraint is case-sensitive).  On the store
`[("Inception", 2010, 9, "p"), ("inception", 1999, 3, "q")]`, the call
`update_movie "INCEPTION" (some 8.5)` rewrites the rating of BOTH
records, so whichever record is taken as "the matched record", another
record changed — refuting the claim. -/
theorem update_frame_cex :
    (update_movie [⟨"Inception", 2010, 9, "p"⟩, ⟨"inception", 1999, 3, "q"⟩]
        "INCEPTION" (some (17/2))).2 =
      ([⟨"Inception", 2010, 17/2, "p"⟩, ⟨"inception", 1999, 17/2, "q"⟩] : Store) ∧
    (3 : ℚ) ≠ 17/2 ∧ (9 : ℚ) ≠ 17/2 := by
  refine ⟨rfl, by norm_num, by norm_num⟩

/-- C5 amended: `update_movie t (some r)` sets `rating := r` exactly as
given (no range validation) on EVERY record whose title matches `t`
case-insensitively, and returns `True` iff at least one matches; every
record's `title` (casing included), `year` and `poster` are untouched,
non-matching records are untouched entirely, and on no match the call
returns `False` with the store unchanged.  When at most one stored
title matches (e.g. under case-insensitive distinctness) this is
exactly the original claim. -/
theorem update_rating_spec (s : Store) (t : String) (r : ℚ) :
    ((update_movie s t (some r)).2).length = s.length ∧
    (∀ (i : ℕ) (m m' : Movie), s[i]? = some m →
        ((update_movie s t (some r)).2)[i]? = some m' →
        m'.title = m.title ∧ m'.year = m.year ∧ m'.poster = m.poster ∧
        m'.rating = if lowerAscii m.title = lowerAscii t then r else m.rating) ∧
    ((update_movie s t (some r)).1 = true ↔ ∃ m ∈ s, lowerAscii m.title = lowerAscii t) ∧
    ((∀ m ∈ s, lowerAscii m.title ≠ lowerAscii t) → update_movie s t (some r) = (false, s)) := by
  refine ⟨?_, ?_, ?_, ?_⟩
  · show (s.map _).length = s.length
    rw [List.length_map]
  · intro i m m' hm hm'
    rw [show (update_movie s t (some r)).2 = s.map (fun m =>
        if lowerAscii m.title == lowerAscii t then { m with rating := r } else m) from rfl,
      List.getElem?_map, hm] at hm'
    have hm'' : m' = if lowerAscii m.title == lowerAscii t then
        { m with rating := r } else m := by
      exact (Option.some_inj.mp hm').symm
    by_cases hc : lowerAscii m.title = lowerAscii t
    · have : (lowerAscii m.title == lowerAscii t) = true := by simpa using hc
      subst hm''
      simp [this, hc]
    · have : (lowerAscii m.title == lowerAscii t) = false := by simpa using hc
      subst hm''
      simp [this, hc]
  · show s.any _ = true ↔ _
    rw [List.any_eq_true]
    simp only [beq_iff_eq]
  · intro h
    have hany : s.any (fun m => lowerAscii m.title == lowerAscii t) = false :=
      List.any_eq_false.mpr (by intro m hm; simpa using h m hm)
    have hmap : s.map (fun m =>
        if lowerAscii m.title == lowerAscii t then { m with rating := r } else m) = s := by
      have : ∀ m ∈ s, (if lowerAscii m.title == lowerAscii t then
          { m with rating := r } else m) = id m := by
        intro m hm
        have : (lowerAscii m.title == lowerAscii t) = false := by simpa using h m hm
        simp [this]
      rw [List.map_congr_left this, List.map_id]
    show (s.any _, s.map _) = (false, s)
    rw [hany, hmap]

/-- Witness for C5: a one-record store, matched case-insensitively and
missed, exercising each hypothesis of the theorem. -/
theorem update_rating_spec_witness :
    ((update_movie [⟨"Inception", 2010, 9, "p"⟩] "INCEPTION" (some 7)).1 = true ↔
      ∃ m ∈ ([⟨"Inception", 2010, 9, "p"⟩] : Store),
        lowerAscii m.title = lowerAscii "INCEPTION") ∧
    update_movie [⟨"Inception", 2010, 9, "p"⟩] "Dune" (some 7)
      = ((false, [⟨"Inception", 2010, 9, "p"⟩]) : Bool × Store) := by
  constructor
  · exact (update_rating_spec [⟨"Inception", 2010, 9, "p"⟩] "INCEPTION" 7).2.2.1
  · exact (update_rating_spec [⟨"Inception", 2010, 9, "p"⟩] "Dune" 7).2.2.2 (by decide)

-- Python's min/max/sum over a non-empty list, as left folds ----------------

lemma foldl_min_mem (l : List ℚ) (a : ℚ) : l.foldl min a ∈ a :: l := by
  induction l generalizing a with
  | nil => simp
  | cons b l ih =>
      rw [List.foldl_cons]
      rcases List.mem_cons.mp (ih (min a b)) with he | hm
      · rcases min_choice a b with h1 | h1
        · rw [he, h1]
          exact List.mem_cons_self _ _
        · rw [he, h1]
          exact List.mem_cons_of_mem _ (List.mem_cons_self _ _)
      · exact List.mem_cons_of_mem _ (List.mem_cons_of_mem _ hm)

lemma foldl_min_le (l : List ℚ) (a : ℚ) : ∀ x ∈ a :: l, l.foldl min a ≤ x := by
  induction l generalizing a with
  | nil =>
      intro x hx
      rw [List.mem_singleton] at hx
      rw [hx, List.foldl_nil]
  | cons b l ih =>
      intro x hx
      rw [List.foldl_cons]
      rcases List.mem_cons.mp hx with he | hx'
      · rw [he]
        exact le_trans (ih (min a b) (min a b) (List.mem_cons_self _ _)) (min_le_left a b)
      · rcases List.mem_cons.mp hx' with he | hx''
        · rw [he]
          exact le_trans (ih (min a b) (min a b) (List.mem_cons_self _ _)) (min_le_right a b)
        · exact ih (min a b) x (List.mem_cons_of_mem _ hx'')

lemma foldl_max_mem (l : List ℚ) (a : ℚ) : l.foldl max a ∈ a :: l := by
  induction l generalizing a with
  | nil => simp
  | cons b l ih =>
      rw [List.foldl_cons]
      rcases List.mem_cons.mp (ih (max a b)) with he | hm
      · rcases max_choice a b with h1 | h1
        · rw [he, h1]
          exact List.mem_cons_self _ _
        · rw [he, h1]
          exact List.mem_cons_of_mem _ (List.mem_cons_self _ _)
      · exact List.mem_cons_of_mem _ (List.mem_cons_of_mem _ hm)

lemma foldl_max_ge (l : List ℚ) (a : ℚ) : ∀ x ∈ a :: l, x ≤ l.foldl max a := by
  induction l generalizing a with
  | nil =>
      intro x hx
      rw [List.mem_singleton] at hx
      rw [hx, List.foldl_nil]
  | cons b l ih =>
      intro x hx
      rw [List.foldl_cons]
      rcases List.mem_cons.mp hx with he | hx'
      · rw [he]
        exact le_trans (le_max_left a b) (ih (max a b) (max a b) (List.mem_cons_self _ _))
      · rcases List.mem_cons.mp hx' with he | hx''
        · rw [he]
          exact le_trans (le_max_right a b) (ih (max a b) (max a b) (List.mem_cons_self _ _))
        · exact ih (max a b) x (List.mem_cons_of_mem _ hx'')

lemma foldl_add_eq_sum (l : List ℚ) (a : ℚ) : l.foldl (· + ·) a = a + l.sum := by
  induction l generalizing a with
  | nil => simp
  | cons b l ih =>
      rw [List.foldl_cons, ih, List.sum_cons]
      ring

/-- C6: On every non-empty store `stats_of_movies` yields the record
count and the minimum, maximum and arithmetic mean of all current
ratings (the mean times the count equals the sum of the ratings); on
the empty store it yields the "no data" signal `none` and never a
numeric result. -/
theorem stats_spec (s : Store) :
    (s = [] → stats_of_movies s = none) ∧
    (s ≠ [] → ∃ st, stats_of_movies s = some st ∧
      st.count = s.length ∧
      st.min_rating ∈ s.map Movie.rating ∧
      (∀ x ∈ s.map Movie.rating, st.min_rating ≤ x) ∧
      st.max_rating ∈ s.map Movie.rating ∧
      (∀ x ∈ s.map Movie.rating, x ≤ st.max_rating) ∧
      st.avg_rating * (st.count : ℚ) = (s.map Movie.rating).sum) := by
  constructor
  · rintro rfl
    rfl
  · intro hne
    cases s with
    | nil => exact absurd rfl hne
    | cons m s' =>
        refine ⟨_, rfl, ?_, ?_, ?_, ?_, ?_, ?_⟩
        · simp
        · exact foldl_min_mem (s'.map Movie.rating) m.rating
        · exact foldl_min_le (s'.map Movie.rating) m.rating
        · exact foldl_max_mem (s'.map Movie.rating) m.rating
        · exact foldl_max_ge (s'.map Movie.rating) m.rating
        · show ((m.rating :: s'.map Movie.rating).foldl (· + ·) 0) /
              (((m.rating :: s'.map Movie.rating).length : ℚ)) *
              (((m.rating :: s'.map Movie.rating).length : ℚ)) = _
          rw [div_mul_cancel₀]
          · rw [foldl_add_eq_sum, zero_add]
            rfl
          · push_cast [List.length_cons]
            positivity

/-- Witness for C6: the empty store signals "no data"; a concrete
two-record store yields numeric statistics. -/
theorem stats_spec_witness :
    stats_of_movies ([] : Store) = none ∧
    (∃ st, stats_of_movies [⟨"A", 1, 2, "p"⟩, ⟨"B", 3, 4, "q"⟩] = some st ∧
      st.count = ([⟨"A", 1, 2, "p"⟩, ⟨"B", 3, 4, "q"⟩] : Store).length ∧
      st.min_rating ∈ ([⟨"A", 1, 2, "p"⟩, ⟨"B", 3, 4, "q"⟩] : Store).map Movie.rating ∧
      (∀ x ∈ ([⟨"A", 1, 2, "p"⟩, ⟨"B", 3, 4, "q"⟩] : Store).map Movie.rating,
        st.min_rating ≤ x) ∧
      st.max_rating ∈ ([⟨"A", 1, 2, "p"⟩, ⟨"B", 3, 4, "q"⟩] : Store).map Movie.rating ∧
      (∀ x ∈ ([⟨"A", 1, 2, "p"⟩, ⟨"B", 3, 4, "q"⟩] : Store).map Movie.rating,
        x ≤ st.max_rating) ∧
      st.avg_rating * (st.count : ℚ) =
        (([⟨"A", 1, 2, "p"⟩, ⟨"B", 3, 4, "q"⟩] : Store).map Movie.rating).sum) := by
  constructor
  · exact (stats_spec []).1 rfl
  · exact (stats_spec [⟨"A", 1, 2, "p"⟩, ⟨"B", 3, 4, "q"⟩]).2 (List.cons_ne_nil _ _)

end MovieProjekt
